import Mathlib

/-!
# GrCCConicShader: the conic coverage shader of the coverage-counting path renderer

A shallow embedding of the shader code that `src/gpu/ccpr/GrCCConicShader.cpp`
generates.  Every `codeAppendf` of the generator is one assignment of the
generated program; the embedding runs those assignments in order over an
ordered field `K` (exact arithmetic: `float` and `half` are both `K`, and
division is the total division of the field, `x / 0 = 0`).

* `emitSetupCode`      : lines 13-46, the KLM matrix, the control point, the hull;
* `onEmitVaryings`     : lines 48-70, the two varyings at one position;
* `onEmitFragmentCode` : lines 72-83, the coverage written by the fragment stage;
* `calcHullCoverage`   : lines 85-93, the shared coverage formula.
-/

namespace GrCCConicShader

/-- The shader type `float2` (also `half2`). -/
structure Float2 (K : Type) where
  x : K
  y : K

/-- The shader type `float3`. -/
structure Float3 (K : Type) where
  x : K
  y : K
  z : K

/-- The shader type `float4`. -/
structure Float4 (K : Type) where
  x : K
  y : K
  z : K
  w : K

/-- The shader type `float3x3`, column-major as in GLSL: `float3x3(a,b,c, d,e,f, g,h,i)`
has the columns `(a,b,c)`, `(d,e,f)`, `(g,h,i)`, and `M[j]` is column `j`. -/
structure Float3x3 (K : Type) where
  c0 : Float3 K
  c1 : Float3 K
  c2 : Float3 K

/-- The input array `pts` of four `float2`: `pts[0]`, `pts[1]`, `pts[2]` are the control points
`P0`, `P1`, `P2` and `pts[3].x` is the weight `w`. -/
structure Pts (K : Type) where
  p0 : Float2 K
  p1 : Float2 K
  p2 : Float2 K
  p3 : Float2 K

/-- The array `float2 conic_hull[4]` declared when hull output is requested. -/
structure Hull4 (K : Type) where
  h0 : Float2 K
  h1 : Float2 K
  h2 : Float2 K
  h3 : Float2 K

/-- The globals populated by `emitSetupCode`: `fKLMMatrix`, `fControlPoint`, and the hull array
when `outHull4` is non-null. -/
structure Setup (K : Type) where
  fKLMMatrix : Float3x3 K
  fControlPoint : Float2 K
  conic_hull : Option (Hull4 K)

/-- The varying `fGrad_fCorner`: reset to `kFloat2_GrSLType` when there is no corner coverage and
to `kFloat4_GrSLType` when there is. -/
inductive GradCorner (K : Type) where
  | float2 (x y : K)
  | float4 (x y z w : K)

/-- The two varyings written by `onEmitVaryings` and read by `onEmitFragmentCode`. -/
structure Varyings (K : Type) where
  fKLM_fWind : Float4 K
  fGrad_fCorner : GradCorner K

section Code

variable {K : Type} [LinearOrderedField K]

/-- Component-wise `float2 + float2`. -/
def Float2.add (a b : Float2 K) : Float2 K := ⟨a.x + b.x, a.y + b.y⟩

/-- Component-wise `float2 - float2`. -/
def Float2.sub (a b : Float2 K) : Float2 K := ⟨a.x - b.x, a.y - b.y⟩

/-- The product `float2 * float` of a vector and a scalar. -/
def Float2.scale (a : Float2 K) (s : K) : Float2 K := ⟨a.x * s, a.y * s⟩

/-- Component-wise `float2 * float2`. -/
def Float2.mul (a b : Float2 K) : Float2 K := ⟨a.x * b.x, a.y * b.y⟩

/-- The product `float * float2` of a scalar and a vector. -/
def Float2.smul (s : K) (a : Float2 K) : Float2 K := ⟨s * a.x, s * a.y⟩

/-- The product `float3 * float` of a vector and a scalar. -/
def Float3.scale (a : Float3 K) (s : K) : Float3 K := ⟨a.x * s, a.y * s, a.z * s⟩

/-- The shader function `dot` on `float3`. -/
def Float3.dot (a b : Float3 K) : K := a.x * b.x + a.y * b.y + a.z * b.z

/-- The swizzle `.xyz` of a `float4`. -/
def Float4.xyz (v : Float4 K) : Float3 K := ⟨v.x, v.y, v.z⟩

/-- The product `M *= s` of a matrix and a scalar: every entry is multiplied. -/
def Float3x3.scale (M : Float3x3 K) (s : K) : Float3x3 K :=
  ⟨M.c0.scale s, M.c1.scale s, M.c2.scale s⟩

/-- The product `float3 * float3x3` of a row vector and a matrix: component `j` of the result is
the dot product of the vector with column `j`. -/
def Float3x3.vecMul (v : Float3 K) (M : Float3x3 K) : Float3 K :=
  ⟨v.dot M.c0, v.dot M.c1, v.dot M.c2⟩

/-- The product `float3x2(M) * float3`: `float3x2(M)` keeps the first two rows of the three
columns of `M`, and the product is the combination of those columns weighted by the vector. -/
def Float3x3.float3x2MulVec (M : Float3x3 K) (v : Float3 K) : Float2 K :=
  ⟨M.c0.x * v.x + M.c1.x * v.y + M.c2.x * v.z, M.c0.y * v.x + M.c1.y * v.y + M.c2.y * v.z⟩

/-- The swizzle `.xy` of the varying `fGrad_fCorner`. -/
def GradCorner.xy : GradCorner K → Float2 K
  | .float2 x y => ⟨x, y⟩
  | .float4 x y _ _ => ⟨x, y⟩

/-- Lines 18-23 of `emitSetupCode`: the matrix assigned to `fKLMMatrix` before it is scaled. -/
def rawKLMMatrix (pts : Pts K) : Float3x3 K :=
  let x0 := pts.p0.x - pts.p1.x
  let x2 := pts.p2.x - pts.p1.x
  let y0 := pts.p0.y - pts.p1.y
  let y2 := pts.p2.y - pts.p1.y
  let w := pts.p3.x
  let l := Float2.smul (2 * w) ⟨y0, -x0⟩
  let m := Float2.smul (2 * w) ⟨-y2, x2⟩
  ⟨⟨y2 - y0, x0 - x2, x2 * y0 - x0 * y2⟩, ⟨l.x, l.y, 0⟩, ⟨m.x, m.y, 0⟩⟩

/-- Line 30 of `emitSetupCode`:
`float kwidth = 2*bloat * wind * (abs(fKLMMatrix[0].x) + abs(fKLMMatrix[0].y))`. -/
def kwidth (bloat wind : K) (M : Float3x3 K) : K :=
  2 * bloat * wind * (|M.c0.x| + |M.c0.y|)

/-- Lines 38-43 of `emitSetupCode`: the hull array `conic_hull`. -/
def conicHull (pts : Pts K) : Hull4 K :=
  let w := pts.p3.x
  let p1w := pts.p1.scale w
  let r := 1 / (1 + w)
  ⟨pts.p0, (pts.p0.add p1w).scale r, (p1w.add pts.p2).scale r, pts.p2⟩

/-- The program generated by `emitSetupCode`, with the ambient constant `bloat`, the input
points `pts`, the winding `wind`, and `outHull4` telling whether the hull is requested. -/
def emitSetupCode (bloat : K) (pts : Pts K) (wind : K) (outHull4 : Bool) : Setup K :=
  let M := rawKLMMatrix pts
  let kw := kwidth bloat wind M
  { fKLMMatrix := M.scale (1 / kw)
    fControlPoint := pts.p1
    conic_hull := if outHull4 then some (conicHull pts) else none }

/-- The program generated by `calcHullCoverage` from the expressions `klm` and `grad`; the
result is the value left in `outputCoverage`. -/
def calcHullCoverage (klm : Float3 K) (grad : Float2 K) : K :=
  let k := klm.x
  let l := klm.y
  let m := klm.z
  let f := k * k - l * m
  let fwidth := |grad.x| + |grad.y|
  let outputCoverage := min (1 / 2 - f / fwidth) 1
  let d := min (k - 1 / 2) 0
  max (outputCoverage + d) 0

/-- The right-hand side of line 54 of `onEmitVaryings` for a matrix `M` and an anchor:
`float3(position - anchor, 1) * M`. -/
def project (M : Float3x3 K) (anchor position : Float2 K) : Float3 K :=
  let d := position.sub anchor
  Float3x3.vecMul ⟨d.x, d.y, 1⟩ M

/-- Line 54 of `onEmitVaryings`: `float3 klm = float3(position - fControlPoint, 1) * fKLMMatrix`. -/
def klmAt (s : Setup K) (position : Float2 K) : Float3 K :=
  project s.fKLMMatrix s.fControlPoint position

/-- The right-hand side of line 61 of `onEmitVaryings`:
`2*bloat * (float3x2(fKLMMatrix) * float3(2*klm[0], -klm[2], -klm[1]))`. -/
def gradAt (bloat : K) (s : Setup K) (klm : Float3 K) : Float2 K :=
  Float2.smul (2 * bloat) (s.fKLMMatrix.float3x2MulVec ⟨2 * klm.x, -klm.z, -klm.y⟩)

/-- The program generated by `onEmitVaryings` at one `position`, with the winding expression
`coverage` and the optional expression `cornerCoverage` (`none` for a null pointer).  The product
`half2(hull_coverage, 1) * cornerCoverage` of line 67 is component-wise; a scalar corner coverage
`c` is the pair `(c, c)`. -/
def onEmitVaryings (bloat : K) (s : Setup K) (position : Float2 K) (coverage : K)
    (cornerCoverage : Option (Float2 K)) : Varyings K :=
  let klm := klmAt s position
  let grad := gradAt bloat s klm
  { fKLM_fWind := ⟨klm.x, klm.y, klm.z, coverage⟩
    fGrad_fCorner :=
      match cornerCoverage with
      | none => .float2 grad.x grad.y
      | some cc =>
        let hull_coverage := calcHullCoverage klm grad
        let zw := Float2.mul ⟨hull_coverage, 1⟩ cc
        .float4 grad.x grad.y zw.x zw.y }

/-- The program generated by `onEmitFragmentCode` on the (interpolated) varyings; the result is
the value left in `outputCoverage`. -/
def onEmitFragmentCode (v : Varyings K) : K :=
  let outputCoverage := calcHullCoverage v.fKLM_fWind.xyz v.fGrad_fCorner.xy
  let outputCoverage := outputCoverage * v.fKLM_fWind.w
  match v.fGrad_fCorner with
  | .float2 _ _ => outputCoverage
  | .float4 _ _ z w => z * w + outputCoverage

/-- The conic point at parameter `t`:
`((1-t)^2*P0 + 2*w*t*(1-t)*P1 + t^2*P2) / ((1-t)^2 + 2*w*t*(1-t) + t^2)`. -/
def conicPoint (pts : Pts K) (t : K) : Float2 K :=
  let w := pts.p3.x
  let D := (1 - t) ^ 2 + 2 * w * t * (1 - t) + t ^ 2
  ⟨((1 - t) ^ 2 * pts.p0.x + 2 * w * t * (1 - t) * pts.p1.x + t ^ 2 * pts.p2.x) / D,
   ((1 - t) ^ 2 * pts.p0.y + 2 * w * t * (1 - t) * pts.p1.y + t ^ 2 * pts.p2.y) / D⟩

/-- The implicit function `f = k*k - l*m` of line 88 on a `klm` triple. -/
def implicitF (klm : Float3 K) : K := klm.x * klm.x - klm.y * klm.z

/-- The value `fwidth = abs(grad.x) + abs(grad.y)` of line 89 on a gradient. -/
def fwidthOf (grad : Float2 K) : K := |grad.x| + |grad.y|

/-- Lines 54, 61 and 66 of `onEmitVaryings` in sequence: the hull coverage computed at one
position from the `klm` and the gradient of that position. -/
def hullCoverageAt (bloat : K) (s : Setup K) (position : Float2 K) : K :=
  let klm := klmAt s position
  calcHullCoverage klm (gradAt bloat s klm)

/-- The three stages in sequence without corner attenuation, the winding value being both the
`wind` of `emitSetupCode` and the `coverage` of `onEmitVaryings`: the coverage that
`onEmitFragmentCode` writes at one position. -/
def finalCoverage (bloat : K) (pts : Pts K) (wind : K) (position : Float2 K) : K :=
  onEmitFragmentCode (onEmitVaryings bloat (emitSetupCode bloat pts wind false) position wind none)

end Code

section Scenario

/-- The scenario of the specification: `P0 = (0,0)`, `P1 = (1,0)`, `P2 = (1,1)`, `w = 1`. -/
def scenarioPts : Pts ℚ := ⟨⟨0, 0⟩, ⟨1, 0⟩, ⟨1, 1⟩, ⟨1, 0⟩⟩

/-- The setup of the scenario of the specification: bloat `1/2`, wind `1`, no hull. -/
def scenarioSetup : Setup ℚ := emitSetupCode (1 / 2) scenarioPts 1 false

/-- The varyings of the scenario at the device point `(1/2, 0)` with corner coverage
`(1/2, 1/2)`, bloat `1/2` and wind `1`. -/
def cornerVaryings : Varyings ℚ :=
  onEmitVaryings (1 / 2) (emitSetupCode (1 / 2) scenarioPts 1 true) ⟨1 / 2, 0⟩ 1
    (some ⟨1 / 2, 1 / 2⟩)

end Scenario

section Properties

variable {K : Type} [LinearOrderedField K]

/-- The `klm` of line 54 with the matrix of `emitSetupCode` is the projection by the raw matrix
about `P1`, scaled by `1/kwidth`. -/
theorem klmAt_emitSetupCode (bloat wind : K) (pts : Pts K) (outHull4 : Bool)
    (position : Float2 K) :
    klmAt (emitSetupCode bloat pts wind outHull4) position =
      (project (rawKLMMatrix pts) pts.p1 position).scale
        (1 / kwidth bloat wind (rawKLMMatrix pts)) := by
  simp only [klmAt, project, emitSetupCode, Float3x3.vecMul, Float3x3.scale, Float3.scale,
    Float3.dot, Float3.mk.injEq]
  refine ⟨?_, ?_, ?_⟩ <;> ring

/-- C1 (implicit-curve identity): for all control points, weight, bloat and wind with
`kwidth != 0`, and every parameter `t` whose denominator `D(t)` is non-zero, the `klm` written
to the KLM/Wind varying by `onEmitVaryings` at the conic point of parameter `t`, with the matrix
built by `emitSetupCode`, satisfies `k*k - l*m = 0`. -/
theorem implicit_curve_identity (bloat wind : K) (pts : Pts K) (outHull4 : Bool)
    (coverage : K) (cornerCoverage : Option (Float2 K)) (t : K)
    (hk : kwidth bloat wind (rawKLMMatrix pts) ≠ 0)
    (hD : (1 - t) ^ 2 + 2 * pts.p3.x * t * (1 - t) + t ^ 2 ≠ 0) :
    let v := onEmitVaryings bloat (emitSetupCode bloat pts wind outHull4) (conicPoint pts t)
      coverage cornerCoverage
    v.fKLM_fWind.x * v.fKLM_fWind.x - v.fKLM_fWind.y * v.fKLM_fWind.z = 0 := by
  intro v
  simp only [v, onEmitVaryings, klmAt_emitSetupCode]
  generalize 1 / kwidth bloat wind (rawKLMMatrix pts) = c
  simp only [project, rawKLMMatrix, conicPoint, Float3x3.vecMul, Float3.scale, Float3.dot,
    Float2.sub, Float2.smul]
  field_simp
  ring

/-- Witness of C1 on the scenario of the specification at `t = 1/3`. -/
theorem implicit_curve_identity_witness :
    kwidth (1 / 2 : ℚ) 1 (rawKLMMatrix scenarioPts) ≠ 0 ∧
    ((1 - 1 / 3 : ℚ) ^ 2 + 2 * scenarioPts.p3.x * (1 / 3) * (1 - 1 / 3) + (1 / 3) ^ 2 ≠ 0) ∧
    (let v := onEmitVaryings (1 / 2 : ℚ) (emitSetupCode (1 / 2) scenarioPts 1 false)
      (conicPoint scenarioPts (1 / 3)) 1 none
    v.fKLM_fWind.x * v.fKLM_fWind.x - v.fKLM_fWind.y * v.fKLM_fWind.z = 0) :=
  ⟨by norm_num [kwidth, rawKLMMatrix, scenarioPts],
   by norm_num [scenarioPts],
   implicit_curve_identity (1 / 2) 1 scenarioPts false 1 none (1 / 3)
     (by norm_num [kwidth, rawKLMMatrix, scenarioPts]) (by norm_num [scenarioPts])⟩

/-- C2 (vanishing lines): for all control points, weight, bloat and wind and every `s`, the
projection `(pos - P1, 1) * KLMMatrix` has `k = 0` at `P0 + s*(P2 - P0)`, `l = 0` at
`P0 + s*(P1 - P0)` and `m = 0` at `P1 + s*(P2 - P1)`, both for the raw matrix and for the matrix
scaled by `1/kwidth` that `emitSetupCode` leaves in `fKLMMatrix`. -/
theorem vanishing_lines (bloat wind : K) (pts : Pts K) (outHull4 : Bool) (s : K) :
    let onP0P2 := pts.p0.add (Float2.smul s (pts.p2.sub pts.p0))
    let onP0P1 := pts.p0.add (Float2.smul s (pts.p1.sub pts.p0))
    let onP1P2 := pts.p1.add (Float2.smul s (pts.p2.sub pts.p1))
    let raw := rawKLMMatrix pts
    let setup := emitSetupCode bloat pts wind outHull4
    ((project raw pts.p1 onP0P2).x = 0 ∧ (project raw pts.p1 onP0P1).y = 0 ∧
      (project raw pts.p1 onP1P2).z = 0) ∧
    ((klmAt setup onP0P2).x = 0 ∧ (klmAt setup onP0P1).y = 0 ∧ (klmAt setup onP1P2).z = 0) := by
  simp only [klmAt_emitSetupCode]
  generalize 1 / kwidth bloat wind (rawKLMMatrix pts) = c
  simp only [project, rawKLMMatrix, Float3x3.vecMul, Float3.scale, Float3.dot, Float2.sub,
    Float2.smul, Float2.add]
  refine ⟨⟨?_, ?_, ?_⟩, ?_, ?_, ?_⟩ <;> ring

/-- C3 (coverage bounds): for every `klm` and every gradient, also one with `fwidth = 0`, the
coverage computed by `calcHullCoverage` lies in the closed interval `[0, 1]`. -/
theorem coverage_bounds (klm : Float3 K) (grad : Float2 K) :
    0 ≤ calcHullCoverage klm grad ∧ calcHullCoverage klm grad ≤ 1 := by
  unfold calcHullCoverage
  refine ⟨le_max_right _ _, max_le ?_ zero_le_one⟩
  have h1 : min (1 / 2 - (klm.x * klm.x - klm.y * klm.z) / (|grad.x| + |grad.y|)) 1 ≤ 1 :=
    min_le_right _ _
  have h2 : min (klm.x - 1 / 2) 0 ≤ 0 := min_le_right _ _
  linarith

/-- The coverage formula of `calcHullCoverage` in terms of `f` and `fwidth`. -/
theorem calcHullCoverage_eq (klm : Float3 K) (grad : Float2 K) :
    calcHullCoverage klm grad =
      max (min (1 / 2 - implicitF klm / fwidthOf grad) 1 + min (klm.x - 1 / 2) 0) 0 := rfl

/-- Evaluation of `cornerVaryings`. -/
theorem cornerVaryings_eq :
    cornerVaryings = ⟨⟨1 / 4, 0, 1 / 2, 1⟩, .float4 (1 / 4) (-3 / 4) (3 / 32) (1 / 2)⟩ := by
  norm_num [cornerVaryings, onEmitVaryings, emitSetupCode, klmAt, project, gradAt,
    calcHullCoverage, rawKLMMatrix, kwidth, scenarioPts, Float3x3.vecMul, Float3x3.scale,
    Float3.scale, Float3.dot, Float2.sub, Float2.smul, Float2.mul, Float3x3.float3x2MulVec,
    abs_of_pos, abs_of_neg, min_def, max_def]

/-- C4, counterexample: on the varyings of the scenario at `(1/2, 0)` with corner coverage
`(1/2, 1/2)` the packed pair is `(3/32, 1/2)`, the winding component is `1`, and the coverage
written by `onEmitFragmentCode` is not `cornerWeight * windingComponent +
hullCoverage * windingComponent` (the code gives `15/64`, the formula `11/16`). -/
theorem corner_composition_counterexample :
    cornerVaryings.fGrad_fCorner = .float4 (1 / 4) (-3 / 4) (3 / 32) (1 / 2) ∧
    cornerVaryings.fKLM_fWind.w = 1 ∧
    onEmitFragmentCode cornerVaryings ≠
      (1 / 2) * cornerVaryings.fKLM_fWind.w +
        calcHullCoverage cornerVaryings.fKLM_fWind.xyz cornerVaryings.fGrad_fCorner.xy *
          cornerVaryings.fKLM_fWind.w := by
  rw [cornerVaryings_eq]
  norm_num [onEmitFragmentCode, calcHullCoverage, Float4.xyz, GradCorner.xy, abs_of_pos,
    abs_of_neg, min_def, max_def]

/-- C4, amended: when the Grad/Corner varying has 4 components `(gx, gy, z, w)`, the coverage
written by `onEmitFragmentCode` is `z * w + hullCoverage * windingComponent`: the corner term is
the product of the two packed components of the Grad/Corner varying, not a product with the
winding component; and `onEmitVaryings` packs `z = hull coverage at the vertex * cornerCoverage.x`
and `w = 1 * cornerCoverage.y`. -/
theorem corner_composition (klmWind : Float4 K) (gx gy z w : K) (bloat : K) (s : Setup K)
    (position : Float2 K) (coverage : K) (cc : Float2 K) :
    onEmitFragmentCode ⟨klmWind, .float4 gx gy z w⟩ =
      z * w + calcHullCoverage klmWind.xyz ⟨gx, gy⟩ * klmWind.w ∧
    (onEmitVaryings bloat s position coverage (some cc)).fGrad_fCorner =
      .float4 (gradAt bloat s (klmAt s position)).x (gradAt bloat s (klmAt s position)).y
        (hullCoverageAt bloat s position * cc.x) (1 * cc.y) :=
  ⟨rfl, rfl⟩

/-- Evaluation of the scenario's matrix: `kwidth = 2` and the columns are halved. -/
theorem scenarioSetup_eq :
    kwidth (1 / 2 : ℚ) 1 (rawKLMMatrix scenarioPts) = 2 ∧
    scenarioSetup =
      ⟨⟨⟨1 / 2, -1 / 2, 1 / 2⟩, ⟨0, 1, 0⟩, ⟨-1, 0, 0⟩⟩, ⟨1, 0⟩, none⟩ := by
  norm_num [scenarioSetup, emitSetupCode, rawKLMMatrix, kwidth, scenarioPts, Float3x3.scale,
    Float3.scale, Float2.smul]

/-- C5, counterexample: in the scenario the conic point of parameter `1/2`, `(3/4, 1/4)`, has
`f = 0` and `fwidth = 1`, and `calcHullCoverage` gives `1/4` there, not `1/2`. -/
theorem boundary_ramp_counterexample :
    conicPoint scenarioPts (1 / 2) = ⟨3 / 4, 1 / 4⟩ ∧
    implicitF (klmAt scenarioSetup ⟨3 / 4, 1 / 4⟩) = 0 ∧
    fwidthOf (gradAt (1 / 2) scenarioSetup (klmAt scenarioSetup ⟨3 / 4, 1 / 4⟩)) ≠ 0 ∧
    calcHullCoverage (klmAt scenarioSetup ⟨3 / 4, 1 / 4⟩)
      (gradAt (1 / 2) scenarioSetup (klmAt scenarioSetup ⟨3 / 4, 1 / 4⟩)) ≠ 1 / 2 := by
  rw [scenarioSetup_eq.2]
  norm_num [conicPoint, scenarioPts, implicitF, fwidthOf, klmAt, project, gradAt,
    calcHullCoverage, Float3x3.vecMul, Float3.dot, Float2.sub, Float2.smul,
    Float3x3.float3x2MulVec, abs_of_pos, abs_of_neg, min_def, max_def]

/-- C5, amended: for every `klm` with `k*k - l*m = 0` and every gradient with `fwidth != 0`,
`calcHullCoverage` gives `max(min(k, 1/2), 0)`, which is exactly `1/2` when `k >= 1/2` (away from
the flat edge), and the result is unchanged when the gradient is rescaled by a positive
factor. -/
theorem boundary_ramp (klm : Float3 K) (grad : Float2 K) (hf : implicitF klm = 0)
    (hw : fwidthOf grad ≠ 0) :
    calcHullCoverage klm grad = max (min klm.x (1 / 2)) 0 ∧
    (1 / 2 ≤ klm.x → calcHullCoverage klm grad = 1 / 2) ∧
    ∀ c : K, 0 < c → calcHullCoverage klm (Float2.smul c grad) = calcHullCoverage klm grad := by
  have key : ∀ g : Float2 K, calcHullCoverage klm g = max (min klm.x (1 / 2)) 0 := by
    intro g
    rw [calcHullCoverage_eq, hf, zero_div, sub_zero, min_eq_left (by norm_num : (1 / 2 : K) ≤ 1)]
    congr 1
    rcases le_total klm.x (1 / 2) with h | h
    · rw [min_eq_left h, min_eq_left (by linarith)]
      ring
    · rw [min_eq_right h, min_eq_right (by linarith)]
      ring
  refine ⟨key grad, fun h => ?_, fun c _ => by rw [key, key]⟩
  rw [key, min_eq_right h, max_eq_left (by norm_num)]

/-- Witness of C5 (amended) at `klm = (1, 1, 1)` and gradient `(1, 0)`. -/
theorem boundary_ramp_witness :
    implicitF (⟨1, 1, 1⟩ : Float3 ℚ) = 0 ∧ fwidthOf (⟨1, 0⟩ : Float2 ℚ) ≠ 0 ∧
    calcHullCoverage (⟨1, 1, 1⟩ : Float3 ℚ) ⟨1, 0⟩ = 1 / 2 :=
  ⟨by norm_num [implicitF], by norm_num [fwidthOf],
   (boundary_ramp ⟨1, 1, 1⟩ ⟨1, 0⟩ (by norm_num [implicitF]) (by norm_num [fwidthOf])).2.1
     (by norm_num)⟩

/-- Negating `wind` negates `kwidth`. -/
theorem kwidth_neg (bloat wind : K) (M : Float3x3 K) :
    kwidth bloat (-wind) M = -kwidth bloat wind M := by
  unfold kwidth
  ring

/-- Negating `wind` in `emitSetupCode` negates the `klm` of every position. -/
theorem klmAt_neg_wind (bloat wind : K) (pts : Pts K) (outHull4 : Bool) (position : Float2 K) :
    klmAt (emitSetupCode bloat pts (-wind) outHull4) position =
      (klmAt (emitSetupCode bloat pts wind outHull4) position).scale (-1) := by
  simp only [klmAt_emitSetupCode, kwidth_neg, one_div_neg_eq_neg_one_div, Float3.scale,
    Float3.mk.injEq]
  refine ⟨?_, ?_, ?_⟩ <;> ring

/-- Negating `wind` in `emitSetupCode` leaves the gradient of line 61 unchanged. -/
theorem gradAt_neg_wind (bloat wind : K) (pts : Pts K) (outHull4 : Bool) (position : Float2 K) :
    gradAt bloat (emitSetupCode bloat pts (-wind) outHull4)
        (klmAt (emitSetupCode bloat pts (-wind) outHull4) position) =
      gradAt bloat (emitSetupCode bloat pts wind outHull4)
        (klmAt (emitSetupCode bloat pts wind outHull4) position) := by
  rw [klmAt_neg_wind]
  simp only [gradAt, emitSetupCode, kwidth_neg, one_div_neg_eq_neg_one_div, Float3.scale,
    Float3x3.scale, Float3x3.float3x2MulVec, Float2.smul, Float2.mk.injEq]
  refine ⟨?_, ?_⟩ <;> ring

/-- C6, counterexample: in the scenario at the device point `(1/2, 0)` the final coverage is
`3/16` with wind `+1` and `0` with wind `-1`, so it is not negated. -/
theorem winding_negation_counterexample :
    finalCoverage (1 / 2) scenarioPts (-1) ⟨1 / 2, 0⟩ ≠
      -finalCoverage (1 / 2) scenarioPts 1 ⟨1 / 2, 0⟩ := by
  norm_num [finalCoverage, onEmitFragmentCode, onEmitVaryings, emitSetupCode, klmAt, project,
    gradAt, calcHullCoverage, rawKLMMatrix, kwidth, scenarioPts, Float3x3.vecMul, Float3x3.scale,
    Float3.scale, Float3.dot, Float2.sub, Float2.smul, Float3x3.float3x2MulVec, Float4.xyz,
    GradCorner.xy, abs_of_pos, abs_of_neg, min_def, max_def]

/-- C6, amended: without corner attenuation the coverage written by `onEmitFragmentCode` is
`calcHullCoverage(klm, grad)` times the 4th component of the KLM/Wind varying, so negating that
component alone negates it; replacing `wind` by `-wind` in `emitSetupCode` as well negates `klm`
and keeps the gradient, so the final coverage becomes minus `calcHullCoverage(-klm, grad) * wind`
(the flat-edge term `min(k - 0.5, 0)` is then taken at `-k`). -/
theorem winding_multiplicativity (bloat wind : K) (pts : Pts K) (position : Float2 K)
    (klmWind : Float4 K) (gx gy : K) :
    onEmitFragmentCode ⟨⟨klmWind.x, klmWind.y, klmWind.z, -klmWind.w⟩, .float2 gx gy⟩ =
      -onEmitFragmentCode ⟨klmWind, .float2 gx gy⟩ ∧
    finalCoverage bloat pts wind position =
      calcHullCoverage (klmAt (emitSetupCode bloat pts wind false) position)
        (gradAt bloat (emitSetupCode bloat pts wind false)
          (klmAt (emitSetupCode bloat pts wind false) position)) * wind ∧
    finalCoverage bloat pts (-wind) position =
      -(calcHullCoverage ((klmAt (emitSetupCode bloat pts wind false) position).scale (-1))
        (gradAt bloat (emitSetupCode bloat pts wind false)
          (klmAt (emitSetupCode bloat pts wind false) position)) * wind) := by
  refine ⟨?_, rfl, ?_⟩
  · simp only [onEmitFragmentCode, Float4.xyz, GradCorner.xy]
    ring
  · have h : finalCoverage bloat pts (-wind) position =
        calcHullCoverage (klmAt (emitSetupCode bloat pts (-wind) false) position)
          (gradAt bloat (emitSetupCode bloat pts (-wind) false)
            (klmAt (emitSetupCode bloat pts (-wind) false) position)) * (-wind) := rfl
    rw [h, gradAt_neg_wind, klmAt_neg_wind]
    ring

/-- C7 (gradient by the chain rule): for every matrix and anchor left by the setup, every
bloat, position `p` and displacement `h`, the first two components of the Grad varying written
by `onEmitVaryings` at `p` satisfy `Grad(p) . h = bloat * (f(p + h) - f(p - h))`, where
`f = k*k - l*m` of the projected `klm`; that is, they are `2*bloat` times the gradient of
the quadratic `f`. -/
theorem gradient_chain_rule (bloat : K) (s : Setup K) (p h : Float2 K) (coverage : K)
    (cornerCoverage : Option (Float2 K)) :
    (onEmitVaryings bloat s p coverage cornerCoverage).fGrad_fCorner.xy.x * h.x +
        (onEmitVaryings bloat s p coverage cornerCoverage).fGrad_fCorner.xy.y * h.y =
      bloat * (implicitF (klmAt s (p.add h)) - implicitF (klmAt s (p.sub h))) := by
  have hxy : (onEmitVaryings bloat s p coverage cornerCoverage).fGrad_fCorner.xy =
      gradAt bloat s (klmAt s p) := by
    cases cornerCoverage <;> rfl
  rw [hxy]
  simp only [gradAt, klmAt, project, implicitF, Float3x3.vecMul, Float3.dot, Float2.sub,
    Float2.add, Float2.smul, Float3x3.float3x2MulVec]
  ring

/-- The Manhattan norm of the position gradient of `k` after the scaling of line 32 is the raw
norm divided by `|kwidth|`, and `|kwidth| = 2*|bloat|*|wind|*(raw norm)`. -/
theorem manhattan_norm_scaled (bloat wind : K) (pts : Pts K) (outHull4 : Bool)
    (hk : kwidth bloat wind (rawKLMMatrix pts) ≠ 0) :
    (|(emitSetupCode bloat pts wind outHull4).fKLMMatrix.c0.x| +
        |(emitSetupCode bloat pts wind outHull4).fKLMMatrix.c0.y|) *
      (2 * |bloat| * |wind|) = 1 := by
  have hk0 := hk
  simp only [emitSetupCode, Float3x3.scale, Float3.scale, abs_mul, abs_div, abs_one]
  unfold kwidth at hk0 ⊢
  generalize (rawKLMMatrix pts).c0.x = a at hk0 ⊢
  generalize (rawKLMMatrix pts).c0.y = b at hk0 ⊢
  have hN : 0 ≤ |a| + |b| := by positivity
  have hb : bloat ≠ 0 := by
    rintro rfl
    simp at hk0
  have hw : wind ≠ 0 := by
    rintro rfl
    simp at hk0
  have hN0 : |a| + |b| ≠ 0 := by
    intro h
    simp [h] at hk0
  have hb1 : |bloat| ≠ 0 := abs_ne_zero.mpr hb
  have hw1 : |wind| ≠ 0 := abs_ne_zero.mpr hw
  rw [abs_mul, abs_mul, abs_mul, abs_two, abs_of_nonneg hN]
  field_simp
  ring

/-- C8 (normalisation invariant): for every input with `kwidth != 0`, `bloat` being the
antialiasing bloat radius (a positive constant), after `emitSetupCode` scales the matrix by
`1/kwidth`, the Manhattan norm `|KLMMatrix[0].x| + |KLMMatrix[0].y|` multiplied by
`2*bloat*|wind|` equals `1`; in particular the norm is exactly `1` when `bloat = 1/2` and `wind`
is `+1` or `-1`. -/
theorem normalisation_invariant (bloat wind : K) (pts : Pts K) (outHull4 : Bool)
    (hk : kwidth bloat wind (rawKLMMatrix pts) ≠ 0) (hb : 0 < bloat) :
    (|(emitSetupCode bloat pts wind outHull4).fKLMMatrix.c0.x| +
        |(emitSetupCode bloat pts wind outHull4).fKLMMatrix.c0.y|) *
      (2 * bloat * |wind|) = 1 ∧
    (bloat = 1 / 2 ∧ (wind = 1 ∨ wind = -1) →
      |(emitSetupCode bloat pts wind outHull4).fKLMMatrix.c0.x| +
        |(emitSetupCode bloat pts wind outHull4).fKLMMatrix.c0.y| = 1) := by
  have h := manhattan_norm_scaled bloat wind pts outHull4 hk
  rw [abs_of_pos hb] at h
  refine ⟨h, ?_⟩
  rintro ⟨hb2, hw⟩
  have hw1 : |wind| = 1 := by
    rcases hw with rfl | rfl <;> simp
  subst hb2
  rw [hw1] at h
  linarith

/-- Witness of C8 on the scenario with bloat `1/2` and wind `-1`. -/
theorem normalisation_invariant_witness :
    kwidth (1 / 2 : ℚ) (-1) (rawKLMMatrix scenarioPts) ≠ 0 ∧ (0 : ℚ) < 1 / 2 ∧
    |(emitSetupCode (1 / 2 : ℚ) scenarioPts (-1) false).fKLMMatrix.c0.x| +
      |(emitSetupCode (1 / 2 : ℚ) scenarioPts (-1) false).fKLMMatrix.c0.y| = 1 :=
  ⟨by norm_num [kwidth, rawKLMMatrix, scenarioPts], by norm_num,
   (normalisation_invariant (1 / 2) (-1) scenarioPts false
     (by norm_num [kwidth, rawKLMMatrix, scenarioPts]) (by norm_num)).2 ⟨rfl, Or.inr rfl⟩⟩

/-- C9, counterexample: in the scenario the coverage at `(9/10, 9/10)` is not above `1/2`
and not above the coverage at `(1/2, 0)`. -/
theorem scenario_expectations_counterexample :
    ¬ (hullCoverageAt (1 / 2) scenarioSetup ⟨1 / 2, 0⟩ < 1 / 2 ∧
      1 / 2 < hullCoverageAt (1 / 2) scenarioSetup ⟨9 / 10, 9 / 10⟩ ∧
      hullCoverageAt (1 / 2) scenarioSetup ⟨1 / 2, 0⟩ <
        hullCoverageAt (1 / 2) scenarioSetup ⟨9 / 10, 9 / 10⟩) := by
  rw [scenarioSetup_eq.2]
  norm_num [hullCoverageAt, klmAt, project, gradAt, calcHullCoverage, Float3x3.vecMul,
    Float3.dot, Float2.sub, Float2.smul, Float3x3.float3x2MulVec, abs_of_pos, abs_of_neg,
    min_def, max_def]

/-- C9, amended: in the scenario (`kwidth = 2`) the coverage at `(1/2, 0)` is `3/16`, below
`1/2`, and the coverage at `(9/10, 9/10)`, a point of the chord from `P0` to `P2` where `k = 0`,
is `9/100`: also below `1/2`, and below the coverage at `(1/2, 0)`. -/
theorem scenario_expectations :
    hullCoverageAt (1 / 2) scenarioSetup ⟨1 / 2, 0⟩ = 3 / 16 ∧
    hullCoverageAt (1 / 2) scenarioSetup ⟨9 / 10, 9 / 10⟩ = 9 / 100 ∧
    (klmAt scenarioSetup ⟨9 / 10, 9 / 10⟩).x = 0 ∧
    finalCoverage (1 / 2) scenarioPts 1 ⟨1 / 2, 0⟩ = 3 / 16 ∧
    finalCoverage (1 / 2) scenarioPts 1 ⟨9 / 10, 9 / 10⟩ = 9 / 100 := by
  have h : ∀ p : Float2 ℚ, finalCoverage (1 / 2) scenarioPts 1 p =
      hullCoverageAt (1 / 2) scenarioSetup p * 1 := fun _ => rfl
  rw [h, h, scenarioSetup_eq.2]
  norm_num [hullCoverageAt, klmAt, project, gradAt, calcHullCoverage, Float3x3.vecMul,
    Float3.dot, Float2.sub, Float2.smul, Float3x3.float3x2MulVec, abs_of_pos, abs_of_neg,
    min_def, max_def]

/-- C10 (sign of the implicit function off the curve): for non-collinear `P0`, `P1`, `P2`,
`w > 0` and bloat, wind with `kwidth != 0`, `f = k*k - l*m` computed from the normalised matrix
is strictly positive at `P1` and strictly negative at every point `s*P0 + (1-s)*P2` with
`0 < s < 1` of the open chord. -/
theorem implicit_sign_off_curve (bloat wind : K) (pts : Pts K) (outHull4 : Bool)
    (hc : (pts.p2.x - pts.p1.x) * (pts.p0.y - pts.p1.y) -
      (pts.p0.x - pts.p1.x) * (pts.p2.y - pts.p1.y) ≠ 0)
    (hw : 0 < pts.p3.x) (hk : kwidth bloat wind (rawKLMMatrix pts) ≠ 0) :
    0 < implicitF (klmAt (emitSetupCode bloat pts wind outHull4) pts.p1) ∧
    ∀ s : K, 0 < s → s < 1 →
      implicitF (klmAt (emitSetupCode bloat pts wind outHull4)
        ((Float2.smul s pts.p0).add (Float2.smul (1 - s) pts.p2))) < 0 := by
  simp only [klmAt_emitSetupCode]
  have hi : (1 / kwidth bloat wind (rawKLMMatrix pts)) ≠ 0 := one_div_ne_zero hk
  generalize 1 / kwidth bloat wind (rawKLMMatrix pts) = c at hi
  simp only [implicitF, project, rawKLMMatrix, Float3x3.vecMul, Float3.scale, Float3.dot,
    Float2.sub, Float2.smul, Float2.add]
  have hcc : 0 < (((pts.p2.x - pts.p1.x) * (pts.p0.y - pts.p1.y) -
      (pts.p0.x - pts.p1.x) * (pts.p2.y - pts.p1.y)) * c) ^ 2 := by positivity
  refine ⟨?_, fun s hs0 hs1 => ?_⟩
  · convert hcc using 1
    ring
  · have h1s : 0 < 1 - s := by linarith
    have hpos : 0 < 4 * pts.p3.x ^ 2 * (s * (1 - s)) *
        (((pts.p2.x - pts.p1.x) * (pts.p0.y - pts.p1.y) -
          (pts.p0.x - pts.p1.x) * (pts.p2.y - pts.p1.y)) * c) ^ 2 := by positivity
    rw [← neg_pos]
    convert hpos using 1
    ring

/-- Witness of C10 on the scenario with bloat `1/2` and wind `-1`, at the chord point of
`s = 1/2`. -/
theorem implicit_sign_off_curve_witness :
    ((scenarioPts.p2.x - scenarioPts.p1.x) * (scenarioPts.p0.y - scenarioPts.p1.y) -
      (scenarioPts.p0.x - scenarioPts.p1.x) * (scenarioPts.p2.y - scenarioPts.p1.y) ≠ 0) ∧
    0 < scenarioPts.p3.x ∧
    kwidth (1 / 2 : ℚ) (-1) (rawKLMMatrix scenarioPts) ≠ 0 ∧
    0 < implicitF (klmAt (emitSetupCode (1 / 2) scenarioPts (-1) false) scenarioPts.p1) ∧
    implicitF (klmAt (emitSetupCode (1 / 2) scenarioPts (-1) false)
      ((Float2.smul (1 / 2) scenarioPts.p0).add (Float2.smul (1 - 1 / 2) scenarioPts.p2))) < 0 :=
  ⟨by norm_num [scenarioPts], by norm_num [scenarioPts],
   by norm_num [kwidth, rawKLMMatrix, scenarioPts],
   (implicit_sign_off_curve (1 / 2) (-1) scenarioPts false (by norm_num [scenarioPts])
     (by norm_num [scenarioPts]) (by norm_num [kwidth, rawKLMMatrix, scenarioPts])).1,
   (implicit_sign_off_curve (1 / 2) (-1) scenarioPts false (by norm_num [scenarioPts])
     (by norm_num [scenarioPts]) (by norm_num [kwidth, rawKLMMatrix, scenarioPts])).2 (1 / 2)
     (by norm_num) (by norm_num)⟩

/-- C11 (hull clip at `w = 1`): for all `P0`, `P1`, `P2`, the hull array emitted by
`emitSetupCode` with weight `1` is `[P0, (P0+P1)/2, (P1+P2)/2, P2]`, and the midpoint of the two
inner hull points is `(P0 + 2*P1 + P2)/4`, the point of the unweighted quadratic at `T = 1/2`. -/
theorem hull_clip_at_w_one (bloat wind : K) (P0 P1 P2 : Float2 K) (p3y : K) :
    (emitSetupCode bloat ⟨P0, P1, P2, ⟨1, p3y⟩⟩ wind true).conic_hull =
      some ⟨P0, ⟨(P0.x + P1.x) / 2, (P0.y + P1.y) / 2⟩,
        ⟨(P1.x + P2.x) / 2, (P1.y + P2.y) / 2⟩, P2⟩ ∧
    ((conicHull ⟨P0, P1, P2, ⟨1, p3y⟩⟩).h1.add (conicHull ⟨P0, P1, P2, ⟨1, p3y⟩⟩).h2).scale
        (1 / 2) =
      ⟨(P0.x + 2 * P1.x + P2.x) / 4, (P0.y + 2 * P1.y + P2.y) / 4⟩ ∧
    conicPoint ⟨P0, P1, P2, ⟨1, p3y⟩⟩ (1 / 2) =
      ⟨(P0.x + 2 * P1.x + P2.x) / 4, (P0.y + 2 * P1.y + P2.y) / 4⟩ := by
  have h2 : (1 : K) + 1 = 2 := by norm_num
  have hD : ((1 : K) - 1 / 2) ^ 2 + 2 * 1 * (1 / 2) * (1 - 1 / 2) + (1 / 2) ^ 2 = 1 := by
    norm_num
  simp only [emitSetupCode, conicHull, conicPoint, Float2.add, Float2.scale, if_true, h2, hD,
    Option.some.injEq, Hull4.mk.injEq, Float2.mk.injEq, true_and, and_true, div_one]
  refine ⟨⟨⟨?_, ?_⟩, ?_, ?_⟩, ⟨?_, ?_⟩, ?_, ?_⟩ <;> ring

/-- C12 (KLM is affine in position): for every matrix and anchor, all positions `p`, `q` and
every scalar `s`, the projection `(pos - anchor, 1) * KLMMatrix` of `onEmitVaryings` satisfies
`klm(s*p + (1-s)*q) = s*klm(p) + (1-s)*klm(q)`, component by component, also as written to the
first three components of the KLM/Wind varying. -/
theorem klm_affine (M : Float3x3 K) (anchor p q : Float2 K) (s : K) (bloat coverage : K)
    (hull : Option (Hull4 K)) (cornerCoverage : Option (Float2 K)) :
    (project M anchor ((Float2.smul s p).add (Float2.smul (1 - s) q))).x =
        s * (project M anchor p).x + (1 - s) * (project M anchor q).x ∧
    (project M anchor ((Float2.smul s p).add (Float2.smul (1 - s) q))).y =
        s * (project M anchor p).y + (1 - s) * (project M anchor q).y ∧
    (project M anchor ((Float2.smul s p).add (Float2.smul (1 - s) q))).z =
        s * (project M anchor p).z + (1 - s) * (project M anchor q).z ∧
    (onEmitVaryings bloat ⟨M, anchor, hull⟩ ((Float2.smul s p).add (Float2.smul (1 - s) q))
        coverage cornerCoverage).fKLM_fWind.xyz =
      ⟨s * (onEmitVaryings bloat ⟨M, anchor, hull⟩ p coverage cornerCoverage).fKLM_fWind.x +
          (1 - s) * (onEmitVaryings bloat ⟨M, anchor, hull⟩ q coverage cornerCoverage).fKLM_fWind.x,
        s * (onEmitVaryings bloat ⟨M, anchor, hull⟩ p coverage cornerCoverage).fKLM_fWind.y +
          (1 - s) * (onEmitVaryings bloat ⟨M, anchor, hull⟩ q coverage cornerCoverage).fKLM_fWind.y,
        s * (onEmitVaryings bloat ⟨M, anchor, hull⟩ p coverage cornerCoverage).fKLM_fWind.z +
          (1 - s) *
            (onEmitVaryings bloat ⟨M, anchor, hull⟩ q coverage cornerCoverage).fKLM_fWind.z⟩ := by
  simp only [onEmitVaryings, klmAt, project, Float4.xyz, Float3x3.vecMul, Float3.dot, Float2.sub,
    Float2.smul, Float2.add, Float3.mk.injEq]
  refine ⟨?_, ?_, ?_, ?_, ?_, ?_⟩ <;> ring

/-- The denominator `D(t)` of the conic point is positive for `w > 0` and `t` in `[0, 1]`. -/
theorem conic_denominator_pos (w t : K) (hw : 0 < w) (h0 : 0 ≤ t) (h1 : t ≤ 1) :
    0 < (1 - t) ^ 2 + 2 * w * t * (1 - t) + t ^ 2 := by
  have h2 : 0 ≤ 2 * w * t * (1 - t) :=
    mul_nonneg (mul_nonneg (by linarith) h0) (by linarith)
  nlinarith [sq_nonneg (1 - 2 * t)]

/-- The raw `k` at the conic point of parameter `t` is the cross product `x2*y0 - x0*y2` times
`2*w*t*(1-t) / D(t)`. -/
theorem raw_k_conicPoint (pts : Pts K) (t : K)
    (hD : (1 - t) ^ 2 + 2 * pts.p3.x * t * (1 - t) + t ^ 2 ≠ 0) :
    (project (rawKLMMatrix pts) pts.p1 (conicPoint pts t)).x =
      ((pts.p2.x - pts.p1.x) * (pts.p0.y - pts.p1.y) -
        (pts.p0.x - pts.p1.x) * (pts.p2.y - pts.p1.y)) *
      (2 * pts.p3.x * t * (1 - t) / ((1 - t) ^ 2 + 2 * pts.p3.x * t * (1 - t) + t ^ 2)) := by
  simp only [project, rawKLMMatrix, conicPoint, Float3x3.vecMul, Float3.dot, Float2.sub,
    Float2.smul]
  field_simp
  ring

/-- The height ratio `2*w*t*(1-t) / D(t)` is non-negative and largest at `t = 1/2`, for `w > 0`
and `t` in `[0, 1]`. -/
theorem height_ratio_le (w t : K) (hw : 0 < w) (h0 : 0 ≤ t) (h1 : t ≤ 1) :
    0 ≤ 2 * w * t * (1 - t) / ((1 - t) ^ 2 + 2 * w * t * (1 - t) + t ^ 2) ∧
    2 * w * t * (1 - t) / ((1 - t) ^ 2 + 2 * w * t * (1 - t) + t ^ 2) ≤
      2 * w * (1 / 2) * (1 - 1 / 2) /
        ((1 - 1 / 2) ^ 2 + 2 * w * (1 / 2) * (1 - 1 / 2) + (1 / 2) ^ 2) := by
  have hD := conic_denominator_pos w t hw h0 h1
  have hD2 := conic_denominator_pos w (1 / 2) hw (by norm_num) (by norm_num)
  have hn : 0 ≤ 2 * w * t * (1 - t) :=
    mul_nonneg (mul_nonneg (by linarith) h0) (by linarith)
  refine ⟨div_nonneg hn hD.le, ?_⟩
  rw [div_le_div_iff hD hD2]
  nlinarith [mul_nonneg hw.le (sq_nonneg (1 - 2 * t))]

/-- C13 (maximum height at `T = 1/2`): for all control points, every `w > 0` and every `t` in
`[0, 1]`, the functional `k` at the conic point `P(t)` satisfies `|k(P(t))| <= |k(P(1/2))|`, both
for the raw matrix and for the normalised matrix of `emitSetupCode`. -/
theorem max_height_at_half (bloat wind : K) (pts : Pts K) (outHull4 : Bool) (t : K)
    (hw : 0 < pts.p3.x) (h0 : 0 ≤ t) (h1 : t ≤ 1) :
    |(project (rawKLMMatrix pts) pts.p1 (conicPoint pts t)).x| ≤
      |(project (rawKLMMatrix pts) pts.p1 (conicPoint pts (1 / 2))).x| ∧
    |(klmAt (emitSetupCode bloat pts wind outHull4) (conicPoint pts t)).x| ≤
      |(klmAt (emitSetupCode bloat pts wind outHull4) (conicPoint pts (1 / 2))).x| := by
  have hD := conic_denominator_pos pts.p3.x t hw h0 h1
  have hD2 := conic_denominator_pos pts.p3.x (1 / 2) hw (by norm_num) (by norm_num)
  obtain ⟨hg0, hg⟩ := height_ratio_le pts.p3.x t hw h0 h1
  have hg2 := (height_ratio_le pts.p3.x (1 / 2) hw (by norm_num) (by norm_num)).1
  have hraw : |(project (rawKLMMatrix pts) pts.p1 (conicPoint pts t)).x| ≤
      |(project (rawKLMMatrix pts) pts.p1 (conicPoint pts (1 / 2))).x| := by
    rw [raw_k_conicPoint pts t hD.ne', raw_k_conicPoint pts (1 / 2) hD2.ne', abs_mul, abs_mul,
      abs_of_nonneg hg0, abs_of_nonneg hg2]
    exact mul_le_mul_of_nonneg_left hg (abs_nonneg _)
  refine ⟨hraw, ?_⟩
  simp only [klmAt_emitSetupCode, Float3.scale, abs_mul]
  exact mul_le_mul_of_nonneg_right hraw (abs_nonneg _)

/-- Witness of C13 on the scenario at `t = 1/4`. -/
theorem max_height_at_half_witness :
    0 < scenarioPts.p3.x ∧ (0 : ℚ) ≤ 1 / 4 ∧ (1 / 4 : ℚ) ≤ 1 ∧
    |(klmAt (emitSetupCode (1 / 2) scenarioPts 1 false) (conicPoint scenarioPts (1 / 4))).x| ≤
      |(klmAt (emitSetupCode (1 / 2) scenarioPts 1 false) (conicPoint scenarioPts (1 / 2))).x| :=
  ⟨by norm_num [scenarioPts], by norm_num, by norm_num,
   (max_height_at_half (1 / 2) 1 scenarioPts false (1 / 4) (by norm_num [scenarioPts])
     (by norm_num) (by norm_num)).2⟩

/-- The inner hull points of `conicHull` in closed form, for `1 + w != 0`. -/
theorem conicHull_inner (pts : Pts K) (hw : 1 + pts.p3.x ≠ 0) :
    (conicHull pts).h1 =
      ⟨(pts.p0.x + pts.p3.x * pts.p1.x) / (1 + pts.p3.x),
        (pts.p0.y + pts.p3.x * pts.p1.y) / (1 + pts.p3.x)⟩ ∧
    (conicHull pts).h2 =
      ⟨(pts.p3.x * pts.p1.x + pts.p2.x) / (1 + pts.p3.x),
        (pts.p3.x * pts.p1.y + pts.p2.y) / (1 + pts.p3.x)⟩ := by
  simp only [conicHull, Float2.add, Float2.scale, Float2.mk.injEq]
  refine ⟨⟨?_, ?_⟩, ?_, ?_⟩ <;> (field_simp; ring)

/-- The conic point at `T = 1/2` in closed form, for `1 + w != 0`. -/
theorem conicPoint_half (pts : Pts K) (hw : 1 + pts.p3.x ≠ 0) :
    conicPoint pts (1 / 2) =
      ⟨(pts.p0.x + 2 * pts.p3.x * pts.p1.x + pts.p2.x) / (2 + 2 * pts.p3.x),
        (pts.p0.y + 2 * pts.p3.x * pts.p1.y + pts.p2.y) / (2 + 2 * pts.p3.x)⟩ := by
  have hw2 : 2 + 2 * pts.p3.x ≠ 0 := by
    intro h
    apply hw
    linarith
  have hD : (1 - 1 / 2 : K) ^ 2 + 2 * pts.p3.x * (1 / 2) * (1 - 1 / 2) + (1 / 2) ^ 2 =
      (2 + 2 * pts.p3.x) / 4 := by ring
  simp only [conicPoint, hD, Float2.mk.injEq]
  refine ⟨?_, ?_⟩ <;> (field_simp; ring)

/-- The raw `k` takes the same value at the two inner hull points and at the closed form of the
conic point at `T = 1/2`. -/
theorem raw_k_clip_edge (pts : Pts K) (hw : 1 + pts.p3.x ≠ 0) :
    (project (rawKLMMatrix pts) pts.p1
        ⟨(pts.p0.x + pts.p3.x * pts.p1.x) / (1 + pts.p3.x),
          (pts.p0.y + pts.p3.x * pts.p1.y) / (1 + pts.p3.x)⟩).x =
      (project (rawKLMMatrix pts) pts.p1
        ⟨(pts.p3.x * pts.p1.x + pts.p2.x) / (1 + pts.p3.x),
          (pts.p3.x * pts.p1.y + pts.p2.y) / (1 + pts.p3.x)⟩).x ∧
    (project (rawKLMMatrix pts) pts.p1
        ⟨(pts.p3.x * pts.p1.x + pts.p2.x) / (1 + pts.p3.x),
          (pts.p3.x * pts.p1.y + pts.p2.y) / (1 + pts.p3.x)⟩).x =
      (project (rawKLMMatrix pts) pts.p1
        ⟨(pts.p0.x + 2 * pts.p3.x * pts.p1.x + pts.p2.x) / (2 + 2 * pts.p3.x),
          (pts.p0.y + 2 * pts.p3.x * pts.p1.y + pts.p2.y) / (2 + 2 * pts.p3.x)⟩).x := by
  have hw2 : 2 + 2 * pts.p3.x ≠ 0 := by
    intro h
    apply hw
    linarith
  simp only [project, rawKLMMatrix, Float3x3.vecMul, Float3.dot, Float2.sub]
  refine ⟨?_, ?_⟩ <;> (field_simp; ring)

/-- C14 (the clip edge of the hull): for all control points and every `w` with `1 + w != 0`,
the inner hull points emitted by `emitSetupCode` are `h1 = (P0 + w*P1)/(1+w)` and
`h2 = (w*P1 + P2)/(1+w)`, they satisfy `h2 - h1 = (P2 - P0)/(1+w)`, their midpoint is the conic
point at `T = 1/2`, `(P0 + 2*w*P1 + P2)/(2 + 2*w)`, and `k` (raw or normalised) takes the same
value at `h1`, at `h2` and at that conic point. -/
theorem hull_clip_edge (bloat wind : K) (pts : Pts K) (hw : 1 + pts.p3.x ≠ 0) :
    (emitSetupCode bloat pts wind true).conic_hull = some (conicHull pts) ∧
    (conicHull pts).h1 =
      ⟨(pts.p0.x + pts.p3.x * pts.p1.x) / (1 + pts.p3.x),
        (pts.p0.y + pts.p3.x * pts.p1.y) / (1 + pts.p3.x)⟩ ∧
    (conicHull pts).h2 =
      ⟨(pts.p3.x * pts.p1.x + pts.p2.x) / (1 + pts.p3.x),
        (pts.p3.x * pts.p1.y + pts.p2.y) / (1 + pts.p3.x)⟩ ∧
    (conicHull pts).h2.sub (conicHull pts).h1 =
      ⟨(pts.p2.x - pts.p0.x) / (1 + pts.p3.x), (pts.p2.y - pts.p0.y) / (1 + pts.p3.x)⟩ ∧
    ((conicHull pts).h1.add (conicHull pts).h2).scale (1 / 2) = conicPoint pts (1 / 2) ∧
    conicPoint pts (1 / 2) =
      ⟨(pts.p0.x + 2 * pts.p3.x * pts.p1.x + pts.p2.x) / (2 + 2 * pts.p3.x),
        (pts.p0.y + 2 * pts.p3.x * pts.p1.y + pts.p2.y) / (2 + 2 * pts.p3.x)⟩ ∧
    (project (rawKLMMatrix pts) pts.p1 (conicHull pts).h1).x =
      (project (rawKLMMatrix pts) pts.p1 (conicHull pts).h2).x ∧
    (project (rawKLMMatrix pts) pts.p1 (conicHull pts).h2).x =
      (project (rawKLMMatrix pts) pts.p1 (conicPoint pts (1 / 2))).x ∧
    (klmAt (emitSetupCode bloat pts wind true) (conicHull pts).h1).x =
      (klmAt (emitSetupCode bloat pts wind true) (conicHull pts).h2).x ∧
    (klmAt (emitSetupCode bloat pts wind true) (conicHull pts).h2).x =
      (klmAt (emitSetupCode bloat pts wind true) (conicPoint pts (1 / 2))).x := by
  have hw2 : 2 + 2 * pts.p3.x ≠ 0 := by
    intro h
    apply hw
    linarith
  obtain ⟨i1, i2⟩ := conicHull_inner pts hw
  have cp := conicPoint_half pts hw
  obtain ⟨e1, e2⟩ := raw_k_clip_edge pts hw
  rw [← i1, ← i2] at e1
  rw [← i2, ← cp] at e2
  refine ⟨rfl, i1, i2, ?_, ?_, cp, e1, e2, ?_, ?_⟩
  · rw [i1, i2]
    simp only [Float2.sub, Float2.mk.injEq]
    refine ⟨?_, ?_⟩ <;> (field_simp; ring)
  · rw [i1, i2, cp]
    simp only [Float2.add, Float2.scale, Float2.mk.injEq]
    refine ⟨?_, ?_⟩ <;> (field_simp; ring)
  · rw [klmAt_emitSetupCode, klmAt_emitSetupCode]
    simp only [Float3.scale]
    rw [e1]
  · rw [klmAt_emitSetupCode, klmAt_emitSetupCode]
    simp only [Float3.scale]
    rw [e2]

/-- Witness of C14 on the scenario: the inner hull points are `(1/2, 0)` and `(1, 1/2)`. -/
theorem hull_clip_edge_witness :
    1 + scenarioPts.p3.x ≠ 0 ∧
    (conicHull scenarioPts).h2.sub (conicHull scenarioPts).h1 =
      ⟨(scenarioPts.p2.x - scenarioPts.p0.x) / (1 + scenarioPts.p3.x),
        (scenarioPts.p2.y - scenarioPts.p0.y) / (1 + scenarioPts.p3.x)⟩ ∧
    (klmAt (emitSetupCode (1 / 2) scenarioPts 1 true) (conicHull scenarioPts).h1).x =
      (klmAt (emitSetupCode (1 / 2) scenarioPts 1 true) (conicHull scenarioPts).h2).x :=
  ⟨by norm_num [scenarioPts],
   (hull_clip_edge (1 / 2) 1 scenarioPts (by norm_num [scenarioPts])).2.2.2.1,
   (hull_clip_edge (1 / 2) 1 scenarioPts (by norm_num [scenarioPts])).2.2.2.2.2.2.2.2.1⟩

/-- C15 (the normalisation divisor): `kwidth = 2*bloat*wind*(|y2 - y0| + |x0 - x2|)` is `0`
if and only if `bloat = 0` or `wind = 0` or `P0 = P2`; in particular `kwidth != 0` whenever
`bloat != 0`, `wind != 0` and `P0`, `P1`, `P2` are not collinear, so `1/kwidth` in
`emitSetupCode` is then not a division by zero. -/
theorem kwidth_eq_zero_iff (bloat wind : K) (pts : Pts K) :
    kwidth bloat wind (rawKLMMatrix pts) =
      2 * bloat * wind * (|(pts.p2.y - pts.p1.y) - (pts.p0.y - pts.p1.y)| +
        |(pts.p0.x - pts.p1.x) - (pts.p2.x - pts.p1.x)|) ∧
    (kwidth bloat wind (rawKLMMatrix pts) = 0 ↔ bloat = 0 ∨ wind = 0 ∨ pts.p0 = pts.p2) ∧
    (bloat ≠ 0 → wind ≠ 0 →
      (pts.p2.x - pts.p1.x) * (pts.p0.y - pts.p1.y) -
        (pts.p0.x - pts.p1.x) * (pts.p2.y - pts.p1.y) ≠ 0 →
      kwidth bloat wind (rawKLMMatrix pts) ≠ 0) := by
  have hiff : kwidth bloat wind (rawKLMMatrix pts) = 0 ↔
      bloat = 0 ∨ wind = 0 ∨ pts.p0 = pts.p2 := by
    have hp : pts.p0 = pts.p2 ↔ pts.p0.x = pts.p2.x ∧ pts.p0.y = pts.p2.y := by
      constructor
      · intro h
        rw [h]
        exact ⟨rfl, rfl⟩
      · rintro ⟨h1, h2⟩
        cases hp0 : pts.p0
        cases hp2 : pts.p2
        rw [hp0, hp2] at h1 h2
        simp only at h1 h2
        rw [h1, h2]
    have hN : |(pts.p2.y - pts.p1.y) - (pts.p0.y - pts.p1.y)| +
        |(pts.p0.x - pts.p1.x) - (pts.p2.x - pts.p1.x)| = 0 ↔
        pts.p0.x = pts.p2.x ∧ pts.p0.y = pts.p2.y := by
      rw [add_eq_zero_iff_of_nonneg (abs_nonneg _) (abs_nonneg _), abs_eq_zero, abs_eq_zero]
      constructor
      · rintro ⟨h1, h2⟩
        exact ⟨by linarith, by linarith⟩
      · rintro ⟨h1, h2⟩
        exact ⟨by linarith, by linarith⟩
    simp only [kwidth, rawKLMMatrix, mul_eq_zero, hN, hp]
    constructor
    · rintro (((h | h) | h) | h)
      · norm_num at h
      · exact Or.inl h
      · exact Or.inr (Or.inl h)
      · exact Or.inr (Or.inr h)
    · rintro (h | h | h)
      · exact Or.inl (Or.inl (Or.inr h))
      · exact Or.inl (Or.inr h)
      · exact Or.inr h
  refine ⟨rfl, hiff, fun hb hw hc h0 => ?_⟩
  rcases hiff.mp h0 with h | h | h
  · exact hb h
  · exact hw h
  · apply hc
    rw [h]
    ring

/-- Witness of C15 on the scenario with bloat `1/2` and wind `1`. -/
theorem kwidth_eq_zero_iff_witness :
    (1 / 2 : ℚ) ≠ 0 ∧ (1 : ℚ) ≠ 0 ∧
    ((scenarioPts.p2.x - scenarioPts.p1.x) * (scenarioPts.p0.y - scenarioPts.p1.y) -
      (scenarioPts.p0.x - scenarioPts.p1.x) * (scenarioPts.p2.y - scenarioPts.p1.y) ≠ 0) ∧
    kwidth (1 / 2 : ℚ) 1 (rawKLMMatrix scenarioPts) ≠ 0 :=
  ⟨by norm_num, by norm_num, by norm_num [scenarioPts],
   (kwidth_eq_zero_iff (1 / 2) 1 scenarioPts).2.2 (by norm_num) (by norm_num)
     (by norm_num [scenarioPts])⟩

/-- Away from the flat edge (`k >= 1/2`) the flat-edge term of `calcHullCoverage` vanishes. -/
theorem calcHullCoverage_of_half_le (klm : Float3 K) (grad : Float2 K) (hk : 1 / 2 ≤ klm.x) :
    calcHullCoverage klm grad = max (min (1 / 2 - implicitF klm / fwidthOf grad) 1) 0 := by
  rw [calcHullCoverage_eq, min_eq_right (by linarith : (0 : K) ≤ klm.x - 1 / 2), add_zero]

/-- Scaling a gradient by a positive factor scales `fwidth` by that factor. -/
theorem fwidthOf_smul (c : K) (grad : Float2 K) (hc : 0 < c) :
    fwidthOf (Float2.smul c grad) = c * fwidthOf grad := by
  simp only [fwidthOf, Float2.smul, abs_mul, abs_of_pos hc]
  ring

/-- C16 (curve-only ramp away from the flat edge): for every `klm` with `k >= 1/2` and every
gradient, also one scaled by a positive factor `c`, `calcHullCoverage` returns
`max(min(1/2 - f/fwidth, 1), 0)` with the `fwidth` of the gradient it is given; it returns exactly
`1/2` when `f = 0`, `1` when `f/fwidth <= -1/2` and `0` when `f/fwidth >= 1/2`. -/
theorem curve_only_ramp (klm : Float3 K) (grad : Float2 K) (c : K) (hk : 1 / 2 ≤ klm.x)
    (hc : 0 < c) :
    calcHullCoverage klm grad = max (min (1 / 2 - implicitF klm / fwidthOf grad) 1) 0 ∧
    calcHullCoverage klm (Float2.smul c grad) =
      max (min (1 / 2 - implicitF klm / (c * fwidthOf grad)) 1) 0 ∧
    (implicitF klm = 0 →
      calcHullCoverage klm grad = 1 / 2 ∧ calcHullCoverage klm (Float2.smul c grad) = 1 / 2) ∧
    (implicitF klm / fwidthOf grad ≤ -1 / 2 → calcHullCoverage klm grad = 1) ∧
    (1 / 2 ≤ implicitF klm / fwidthOf grad → calcHullCoverage klm grad = 0) ∧
    (implicitF klm / (c * fwidthOf grad) ≤ -1 / 2 →
      calcHullCoverage klm (Float2.smul c grad) = 1) ∧
    (1 / 2 ≤ implicitF klm / (c * fwidthOf grad) →
      calcHullCoverage klm (Float2.smul c grad) = 0) := by
  have key : ∀ g : Float2 K,
      (implicitF klm = 0 → calcHullCoverage klm g = 1 / 2) ∧
      (implicitF klm / fwidthOf g ≤ -1 / 2 → calcHullCoverage klm g = 1) ∧
      (1 / 2 ≤ implicitF klm / fwidthOf g → calcHullCoverage klm g = 0) := by
    intro g
    rw [calcHullCoverage_of_half_le klm g hk]
    refine ⟨fun h => ?_, fun h => ?_, fun h => ?_⟩
    · rw [h, zero_div, sub_zero, min_eq_left (by norm_num), max_eq_left (by norm_num)]
    · rw [min_eq_right (by linarith), max_eq_left zero_le_one]
    · rw [min_eq_left (by linarith), max_eq_right (by linarith)]
  have hs := fwidthOf_smul c grad hc
  have k1 := key grad
  have k2 := key (Float2.smul c grad)
  rw [hs] at k2
  refine ⟨calcHullCoverage_of_half_le klm grad hk, ?_, fun h => ⟨k1.1 h, k2.1 h⟩, k1.2.1,
    k1.2.2, k2.2.1, k2.2.2⟩
  rw [calcHullCoverage_of_half_le klm _ hk, hs]

/-- Witness of C16 at `klm = (1, 3, 1)`, `f = -2`, gradient `(1, 1)` scaled by `2`:
`f/fwidth = -1/2` and the coverage is `1`. -/
theorem curve_only_ramp_witness :
    (1 / 2 : ℚ) ≤ (⟨1, 3, 1⟩ : Float3 ℚ).x ∧ (0 : ℚ) < 2 ∧
    implicitF (⟨1, 3, 1⟩ : Float3 ℚ) / (2 * fwidthOf (⟨1, 1⟩ : Float2 ℚ)) ≤ -1 / 2 ∧
    calcHullCoverage (⟨1, 3, 1⟩ : Float3 ℚ) (Float2.smul 2 ⟨1, 1⟩) = 1 :=
  ⟨by norm_num, by norm_num, by norm_num [implicitF, fwidthOf],
   (curve_only_ramp ⟨1, 3, 1⟩ ⟨1, 1⟩ 2 (by norm_num) (by norm_num)).2.2.2.2.2.1
     (by norm_num [implicitF, fwidthOf])⟩

/-- C17 (hull coverage never exceeds either edge): for every `klm` and gradient, the result of
`calcHullCoverage` is at most the clamped curve coverage `max(min(1/2 - f/fwidth, 1), 0)` and at
most the clamped flat-edge coverage `max(min(k + 1/2, 1), 0)`, with equality to the flat-edge
coverage whenever the curve coverage saturates at `1` (`f/fwidth <= -1/2`). -/
theorem hull_le_edges (klm : Float3 K) (grad : Float2 K) :
    calcHullCoverage klm grad ≤ max (min (1 / 2 - implicitF klm / fwidthOf grad) 1) 0 ∧
    calcHullCoverage klm grad ≤ max (min (klm.x + 1 / 2) 1) 0 ∧
    (implicitF klm / fwidthOf grad ≤ -1 / 2 →
      calcHullCoverage klm grad = max (min (klm.x + 1 / 2) 1) 0) := by
  rw [calcHullCoverage_eq]
  have ha : min (1 / 2 - implicitF klm / fwidthOf grad) 1 ≤ 1 := min_le_right _ _
  have hd0 : min (klm.x - 1 / 2) 0 ≤ 0 := min_le_right _ _
  have hdk : min (klm.x - 1 / 2) 0 ≤ klm.x - 1 / 2 := min_le_left _ _
  have hflat : (1 : K) + min (klm.x - 1 / 2) 0 = min (klm.x + 1 / 2) 1 := by
    rcases le_total (klm.x - 1 / 2) 0 with h | h
    · rw [min_eq_left h, min_eq_left (by linarith)]
      ring
    · rw [min_eq_right h, min_eq_right (by linarith)]
      ring
  refine ⟨max_le_max (by linarith) le_rfl, max_le_max (le_min (by linarith) (by linarith)) le_rfl,
    fun h => ?_⟩
  rw [min_eq_right (by linarith), hflat]

/-- Witness of C17 at `klm = (1/4, 3, 1)`, `f = -47/16`, gradient `(1, 1)`: the curve coverage
saturates and the hull coverage is the flat-edge coverage `3/4`. -/
theorem hull_le_edges_witness :
    implicitF (⟨1 / 4, 3, 1⟩ : Float3 ℚ) / fwidthOf (⟨1, 1⟩ : Float2 ℚ) ≤ -1 / 2 ∧
    calcHullCoverage (⟨1 / 4, 3, 1⟩ : Float3 ℚ) ⟨1, 1⟩ =
      max (min ((⟨1 / 4, 3, 1⟩ : Float3 ℚ).x + 1 / 2) 1) 0 :=
  ⟨by norm_num [implicitF, fwidthOf],
   (hull_le_edges ⟨1 / 4, 3, 1⟩ ⟨1, 1⟩).2.2 (by norm_num [implicitF, fwidthOf])⟩

/-- C18 (effect of the winding sign on the geometry): for all control points, weight, bloat,
position and wind with `kwidth != 0`, replacing `wind` by `-wind` in `emitSetupCode` negates
every entry of the normalised KLM matrix and hence `klm(p)`, while `f(p) = k*k - l*m` and the
first two components of the Grad varying are unchanged. -/
theorem winding_sign_geometry (bloat wind : K) (pts : Pts K) (outHull4 : Bool) (p : Float2 K)
    (coverage coverage2 : K) (cornerCoverage : Option (Float2 K))
    (hk : kwidth bloat wind (rawKLMMatrix pts) ≠ 0) :
    (emitSetupCode bloat pts (-wind) outHull4).fKLMMatrix =
      ⟨⟨-(emitSetupCode bloat pts wind outHull4).fKLMMatrix.c0.x,
          -(emitSetupCode bloat pts wind outHull4).fKLMMatrix.c0.y,
          -(emitSetupCode bloat pts wind outHull4).fKLMMatrix.c0.z⟩,
        ⟨-(emitSetupCode bloat pts wind outHull4).fKLMMatrix.c1.x,
          -(emitSetupCode bloat pts wind outHull4).fKLMMatrix.c1.y,
          -(emitSetupCode bloat pts wind outHull4).fKLMMatrix.c1.z⟩,
        ⟨-(emitSetupCode bloat pts wind outHull4).fKLMMatrix.c2.x,
          -(emitSetupCode bloat pts wind outHull4).fKLMMatrix.c2.y,
          -(emitSetupCode bloat pts wind outHull4).fKLMMatrix.c2.z⟩⟩ ∧
    klmAt (emitSetupCode bloat pts (-wind) outHull4) p =
      ⟨-(klmAt (emitSetupCode bloat pts wind outHull4) p).x,
        -(klmAt (emitSetupCode bloat pts wind outHull4) p).y,
        -(klmAt (emitSetupCode bloat pts wind outHull4) p).z⟩ ∧
    implicitF (klmAt (emitSetupCode bloat pts (-wind) outHull4) p) =
      implicitF (klmAt (emitSetupCode bloat pts wind outHull4) p) ∧
    (onEmitVaryings bloat (emitSetupCode bloat pts (-wind) outHull4) p coverage2
        cornerCoverage).fGrad_fCorner.xy =
      (onEmitVaryings bloat (emitSetupCode bloat pts wind outHull4) p coverage
        cornerCoverage).fGrad_fCorner.xy := by
  have hxy : ∀ (s : Setup K) (cov : K),
      (onEmitVaryings bloat s p cov cornerCoverage).fGrad_fCorner.xy =
        gradAt bloat s (klmAt s p) := by
    intro s cov
    cases cornerCoverage <;> rfl
  refine ⟨?_, ?_, ?_, ?_⟩
  · simp only [emitSetupCode, kwidth_neg, one_div_neg_eq_neg_one_div, Float3x3.scale,
      Float3.scale, Float3x3.mk.injEq, Float3.mk.injEq]
    refine ⟨⟨?_, ?_, ?_⟩, ⟨?_, ?_, ?_⟩, ?_, ?_, ?_⟩ <;> ring
  · rw [klmAt_neg_wind]
    simp only [Float3.scale, Float3.mk.injEq]
    refine ⟨?_, ?_, ?_⟩ <;> ring
  · rw [klmAt_neg_wind]
    simp only [implicitF, Float3.scale]
    ring
  · rw [hxy, hxy, gradAt_neg_wind]

/-- Witness of C18 on the scenario with bloat `1/2` and wind `1`, at the position `(1/2, 0)`. -/
theorem winding_sign_geometry_witness :
    kwidth (1 / 2 : ℚ) 1 (rawKLMMatrix scenarioPts) ≠ 0 ∧
    implicitF (klmAt (emitSetupCode (1 / 2) scenarioPts (-1) false) ⟨1 / 2, 0⟩) =
      implicitF (klmAt (emitSetupCode (1 / 2) scenarioPts 1 false) ⟨1 / 2, 0⟩) :=
  ⟨by norm_num [kwidth, rawKLMMatrix, scenarioPts],
   (winding_sign_geometry (1 / 2) 1 scenarioPts false ⟨1 / 2, 0⟩ 1 (-1) none
     (by norm_num [kwidth, rawKLMMatrix, scenarioPts])).2.2.1⟩

/-- For non-collinear control points the Manhattan norm in `kwidth` is positive. -/
theorem manhattan_pos_of_cross (pts : Pts K)
    (hc : (pts.p2.x - pts.p1.x) * (pts.p0.y - pts.p1.y) -
      (pts.p0.x - pts.p1.x) * (pts.p2.y - pts.p1.y) ≠ 0) :
    0 < |(rawKLMMatrix pts).c0.x| + |(rawKLMMatrix pts).c0.y| := by
  simp only [rawKLMMatrix]
  rcases (add_nonneg (abs_nonneg ((pts.p2.y - pts.p1.y) - (pts.p0.y - pts.p1.y)))
    (abs_nonneg ((pts.p0.x - pts.p1.x) - (pts.p2.x - pts.p1.x)))).lt_or_eq with h | h
  · exact h
  · exfalso
    rw [eq_comm, add_eq_zero_iff_of_nonneg (abs_nonneg _) (abs_nonneg _), abs_eq_zero,
      abs_eq_zero] at h
    apply hc
    have h1 : pts.p2.y = pts.p0.y := by linarith [h.1]
    have h2 : pts.p0.x = pts.p2.x := by linarith [h.2]
    rw [h1, h2]
    ring

/-- The normalised `k` at `P1` is `cross/kwidth` and has the sign of `wind * cross` when
`bloat > 0`. -/
theorem k_at_control_point (bloat wind : K) (pts : Pts K) (outHull4 : Bool) (hb : 0 < bloat) :
    (klmAt (emitSetupCode bloat pts wind outHull4) pts.p1).x =
      ((pts.p2.x - pts.p1.x) * (pts.p0.y - pts.p1.y) -
        (pts.p0.x - pts.p1.x) * (pts.p2.y - pts.p1.y)) *
      (1 / kwidth bloat wind (rawKLMMatrix pts)) ∧
    (0 < wind * ((pts.p2.x - pts.p1.x) * (pts.p0.y - pts.p1.y) -
        (pts.p0.x - pts.p1.x) * (pts.p2.y - pts.p1.y)) →
      0 < ((pts.p2.x - pts.p1.x) * (pts.p0.y - pts.p1.y) -
        (pts.p0.x - pts.p1.x) * (pts.p2.y - pts.p1.y)) *
      (1 / kwidth bloat wind (rawKLMMatrix pts))) ∧
    (wind * ((pts.p2.x - pts.p1.x) * (pts.p0.y - pts.p1.y) -
        (pts.p0.x - pts.p1.x) * (pts.p2.y - pts.p1.y)) < 0 →
      ((pts.p2.x - pts.p1.x) * (pts.p0.y - pts.p1.y) -
        (pts.p0.x - pts.p1.x) * (pts.p2.y - pts.p1.y)) *
      (1 / kwidth bloat wind (rawKLMMatrix pts)) < 0) := by
  refine ⟨?_, ?_, ?_⟩
  · rw [klmAt_emitSetupCode]
    simp only [project, rawKLMMatrix, Float3x3.vecMul, Float3.scale, Float3.dot, Float2.sub]
    ring
  all_goals
    intro h
    have hc : (pts.p2.x - pts.p1.x) * (pts.p0.y - pts.p1.y) -
        (pts.p0.x - pts.p1.x) * (pts.p2.y - pts.p1.y) ≠ 0 := by
      intro h0
      rw [h0, mul_zero] at h
      exact lt_irrefl _ h
    have hN := manhattan_pos_of_cross pts hc
    have hw : wind ≠ 0 := by
      rintro rfl
      rw [zero_mul] at h
      exact lt_irrefl _ h
    have hw2 : 0 < wind ^ 2 := by positivity
    unfold kwidth
    generalize |(rawKLMMatrix pts).c0.x| + |(rawKLMMatrix pts).c0.y| = N at hN
    generalize (pts.p2.x - pts.p1.x) * (pts.p0.y - pts.p1.y) -
        (pts.p0.x - pts.p1.x) * (pts.p2.y - pts.p1.y) = cr at h hc
    have hP : 0 < 2 * bloat * wind ^ 2 * N := by positivity
    have e : cr * (1 / (2 * bloat * wind * N)) = wind * cr / (2 * bloat * wind ^ 2 * N) := by
      field_simp
      ring
    rw [e]
  · exact div_pos h hP
  · exact div_neg_of_neg_of_pos h hP

/-- The normalised `k` at the conic point of parameter `t` is the normalised `k` at `P1` times
the height ratio `2*w*t*(1-t) / D(t)`. -/
theorem k_conicPoint (bloat wind : K) (pts : Pts K) (outHull4 : Bool) (t : K)
    (hD : (1 - t) ^ 2 + 2 * pts.p3.x * t * (1 - t) + t ^ 2 ≠ 0) :
    (klmAt (emitSetupCode bloat pts wind outHull4) (conicPoint pts t)).x =
      ((pts.p2.x - pts.p1.x) * (pts.p0.y - pts.p1.y) -
        (pts.p0.x - pts.p1.x) * (pts.p2.y - pts.p1.y)) *
      (1 / kwidth bloat wind (rawKLMMatrix pts)) *
      (2 * pts.p3.x * t * (1 - t) / ((1 - t) ^ 2 + 2 * pts.p3.x * t * (1 - t) + t ^ 2)) := by
  rw [klmAt_emitSetupCode]
  simp only [Float3.scale]
  rw [raw_k_conicPoint pts t hD]
  ring

/-- C19 (orientation of `k`): for control points with `cross = x2*y0 - x0*y2` (relative to
`P1`), every `w > 0`, `bloat > 0` and `wind` with `wind*cross > 0`, the normalised `k` is strictly
positive at `P1`, non-negative at every conic point `P(t)` with `t` in `[0, 1]` and strictly
positive for `0 < t < 1`; with `wind*cross < 0` all these signs are reversed. -/
theorem k_orientation (bloat wind : K) (pts : Pts K) (outHull4 : Bool) (t : K)
    (hw : 0 < pts.p3.x) (hb : 0 < bloat) :
    (0 < wind * ((pts.p2.x - pts.p1.x) * (pts.p0.y - pts.p1.y) -
        (pts.p0.x - pts.p1.x) * (pts.p2.y - pts.p1.y)) →
      0 < (klmAt (emitSetupCode bloat pts wind outHull4) pts.p1).x ∧
      (0 ≤ t → t ≤ 1 →
        0 ≤ (klmAt (emitSetupCode bloat pts wind outHull4) (conicPoint pts t)).x) ∧
      (0 < t → t < 1 →
        0 < (klmAt (emitSetupCode bloat pts wind outHull4) (conicPoint pts t)).x)) ∧
    (wind * ((pts.p2.x - pts.p1.x) * (pts.p0.y - pts.p1.y) -
        (pts.p0.x - pts.p1.x) * (pts.p2.y - pts.p1.y)) < 0 →
      (klmAt (emitSetupCode bloat pts wind outHull4) pts.p1).x < 0 ∧
      (0 ≤ t → t ≤ 1 →
        (klmAt (emitSetupCode bloat pts wind outHull4) (conicPoint pts t)).x ≤ 0) ∧
      (0 < t → t < 1 →
        (klmAt (emitSetupCode bloat pts wind outHull4) (conicPoint pts t)).x < 0)) := by
  obtain ⟨e, hpos, hneg⟩ := k_at_control_point bloat wind pts outHull4 hb
  have hg0 : 0 ≤ t → t ≤ 1 →
      0 ≤ 2 * pts.p3.x * t * (1 - t) / ((1 - t) ^ 2 + 2 * pts.p3.x * t * (1 - t) + t ^ 2) :=
    fun h0 h1 => (height_ratio_le pts.p3.x t hw h0 h1).1
  have hg1 : 0 < t → t < 1 →
      0 < 2 * pts.p3.x * t * (1 - t) / ((1 - t) ^ 2 + 2 * pts.p3.x * t * (1 - t) + t ^ 2) := by
    intro h0 h1
    have h1t : 0 < 1 - t := by linarith
    exact div_pos (by positivity) (conic_denominator_pos pts.p3.x t hw h0.le h1.le)
  refine ⟨fun h => ⟨?_, fun h0 h1 => ?_, fun h0 h1 => ?_⟩,
    fun h => ⟨?_, fun h0 h1 => ?_, fun h0 h1 => ?_⟩⟩
  · rw [e]
    exact hpos h
  · rw [k_conicPoint bloat wind pts outHull4 t (conic_denominator_pos pts.p3.x t hw h0 h1).ne']
    exact mul_nonneg (hpos h).le (hg0 h0 h1)
  · rw [k_conicPoint bloat wind pts outHull4 t
      (conic_denominator_pos pts.p3.x t hw h0.le h1.le).ne']
    exact mul_pos (hpos h) (hg1 h0 h1)
  · rw [e]
    exact hneg h
  · rw [k_conicPoint bloat wind pts outHull4 t (conic_denominator_pos pts.p3.x t hw h0 h1).ne']
    exact mul_nonpos_of_nonpos_of_nonneg (hneg h).le (hg0 h0 h1)
  · rw [k_conicPoint bloat wind pts outHull4 t
      (conic_denominator_pos pts.p3.x t hw h0.le h1.le).ne']
    exact mul_neg_of_neg_of_pos (hneg h) (hg1 h0 h1)

/-- Witness of C19 on the scenario (`cross = 1`) with bloat `1/2` and wind `1`, at `t = 1/3`. -/
theorem k_orientation_witness :
    0 < scenarioPts.p3.x ∧ (0 : ℚ) < 1 / 2 ∧
    (0 : ℚ) < 1 * ((scenarioPts.p2.x - scenarioPts.p1.x) * (scenarioPts.p0.y - scenarioPts.p1.y) -
      (scenarioPts.p0.x - scenarioPts.p1.x) * (scenarioPts.p2.y - scenarioPts.p1.y)) ∧
    0 < (klmAt (emitSetupCode (1 / 2) scenarioPts 1 false) scenarioPts.p1).x ∧
    0 < (klmAt (emitSetupCode (1 / 2) scenarioPts 1 false) (conicPoint scenarioPts (1 / 3))).x :=
  ⟨by norm_num [scenarioPts], by norm_num, by norm_num [scenarioPts],
   ((k_orientation (1 / 2) 1 scenarioPts false (1 / 3) (by norm_num [scenarioPts])
     (by norm_num)).1 (by norm_num [scenarioPts])).1,
   ((k_orientation (1 / 2) 1 scenarioPts false (1 / 3) (by norm_num [scenarioPts])
     (by norm_num)).1 (by norm_num [scenarioPts])).2.2 (by norm_num) (by norm_num)⟩

end Properties

end GrCCConicShader
